import Mathlib

/-!
Shallow embedding of the Database-System repository (storage manager,
buffer manager, record manager) and proofs about the claims of its
specification.

Sources embedded here:
  * src/src/storage_mgr.c   (page file layer)
  * src/unnamed/part_000    (buffer manager)
  * src/record_mgr.c        (record/table manager)

Machine integers are modelled as Int/Nat; byte buffers as functions
Nat → Int or as List Int of cells; fallible C code (including undefined
behavior such as out-of-bounds accesses and null dereferences) returns
Option, with none standing for undefined behavior.
-/

set_option linter.unusedVariables false

set_option maxRecDepth 16384

/-! ### Return codes (src/src/dberror.h) -/

def PAGE_SIZE : Nat := 4096

def RC_OK : Int := 0

def RC_READ_NON_EXISTING_PAGE : Int := 4

def RC_READ_FAILED : Int := 7

def RC_PAGE_NOT_FOUND : Int := 12

def RC_SHUTDOWN_POOL_FAILED : Int := 9

def RC_RM_RECORD_NOT_EXIST : Int := 207

def RC_RM_NO_MORE_TUPLES : Int := 203

/-! ### Storage manager (src/src/storage_mgr.c) -/

/-- File handle of the storage manager (`SM_FileHandle`): total page count
and current page position.  The file name is left implicit: the model
assumes the backing file exists (the claims only concern open handles), so
`fopen` succeeds. -/
structure SMFileHandle where
  totalNumPages : Int
  curPagePos : Int
deriving Repr, DecidableEq

/-- Embedding of `readPreviousBlock` (storage_mgr.c lines 263-296).  The
validity check is `curPagePos >= 0 && curPagePos <= totalNumPages - 1`;
then the code seeks to `(curPagePos - 1) * PAGE_SIZE`.  `fseek` is modelled
POSIX-style: seeking to a negative offset fails (EINVAL), in which case the
code returns `RC_READ_NON_EXISTING_PAGE` before touching `curPagePos`.
`fread` succeeds iff the whole page lies within the file, whose byte length
is `fileBytes`; a short read returns `RC_READ_FAILED`.  On success
`curPagePos` is decremented. -/
def readPreviousBlock (h : SMFileHandle) (fileBytes : Int) : Int × SMFileHandle :=
  if ¬ (h.curPagePos ≥ 0 ∧ h.curPagePos ≤ h.totalNumPages - 1) then
    (RC_READ_NON_EXISTING_PAGE, h)
  else
    let offset := (h.curPagePos - 1) * (PAGE_SIZE : Int)
    if offset < 0 then
      (RC_READ_NON_EXISTING_PAGE, h)
    else if fileBytes < offset + (PAGE_SIZE : Int) then
      (RC_READ_FAILED, h)
    else
      (RC_OK, { h with curPagePos := h.curPagePos - 1 })

/-! ### Schema and record codec (src/record_mgr.c) -/

/-- Attribute data types (`DataType` in tables.h): bool, int, float,
string.  String lengths live in the separate `typeLength` array, exactly
as in the C `Schema` struct. -/
inductive DataType where
  | DT_INT
  | DT_STRING
  | DT_FLOAT
  | DT_BOOL
deriving Repr, DecidableEq

/-- Embedding of the C `Schema` struct: attribute count, attribute names,
data types, type lengths, key count and key attribute indices. -/
structure Schema where
  numAttr : Nat
  attrNames : List String
  dataTypes : List DataType
  typeLength : List Nat
  keySize : Nat
  keyAttrs : List Nat
deriving Repr, DecidableEq

/-- Size in bytes contributed by attribute `i` of a schema, following the
branches of `getRecordSize` / the offset loops of `getAttr`/`setAttr`:
sizeof(bool) = 1, sizeof(int) = sizeof(float) = 4, strings contribute
`typeLength[i]`. -/
def attrSizeAt (s : Schema) (i : Nat) : Nat :=
  match s.dataTypes.getD i DataType.DT_INT with
  | DataType.DT_BOOL => 1
  | DataType.DT_INT => 4
  | DataType.DT_FLOAT => 4
  | DataType.DT_STRING => s.typeLength.getD i 0

/-- Embedding of `getRecordSize` (record_mgr.c lines 821-835): sum of the
sizes of attributes `0 .. numAttr-1`. -/
def getRecordSize (s : Schema) : Nat :=
  (List.range s.numAttr).foldl (fun acc i => acc + attrSizeAt s i) 0

/-- Byte offset of attribute `i` inside a record buffer, as computed by the
offset loops of `getAttr` (lines 971-981) and `setAttr` (lines 1039-1050):
the sum of the sizes of the attributes before `i`. -/
def attrOffset (s : Schema) (i : Nat) : Nat :=
  (List.range i).foldl (fun acc j => acc + attrSizeAt s j) 0

/-- Byte `j` of the destination region of `strncpy(dst, src, n)`: source
bytes are copied until the first null, after which the rest is null-padded;
reading past the end of `src` yields 0 (its terminating null). -/
def strncpyByte (src : List Int) (j : Nat) : Int :=
  if (src.take j).all (fun b => b ≠ 0) then src.getD j 0 else 0

/-- Embedding of the `DT_STRING` branch of `setAttr` (record_mgr.c lines
1059-1063): `strncpy(record->data + offset, v, typeLength)` followed by
`record->data[offset + typeLength] = 0`.  The record buffer is modelled as
unbounded memory (`Nat → Int`), since the final write may land outside the
allocated record. -/
def setAttrString (data : Nat → Int) (offset : Nat) (src : List Int) (n : Nat) :
    Nat → Int :=
  fun p =>
    if p = offset + n then 0
    else if offset ≤ p ∧ p < offset + n then strncpyByte src (p - offset)
    else data p

/-! ### createTable header (src/record_mgr.c lines 84-129) -/

/-- Little-endian encoding of a 32-bit value as four bytes, matching the
`memcpy(buffer + i * sizeof(int), &metadata[i], sizeof(int))` byte layout
on a little-endian host. -/
def toLE4 (n : Nat) : List Nat :=
  [n % 256, n / 256 % 256, n / 65536 % 256, n / 16777216 % 256]

/-- Little-endian decoding of four bytes back to a value. -/
def fromLE4 (bs : List Nat) : Nat :=
  bs.getD 0 0 + 256 * bs.getD 1 0 + 65536 * bs.getD 2 0 + 16777216 * bs.getD 3 0

/-- Read the 32-bit little-endian integer stored at byte offset `off`. -/
def readInt32At (bytes : List Nat) (off : Nat) : Nat :=
  fromLE4 ((bytes.drop off).take 4)

/-- Modelled from the spec: `serializeSchema` (rm_serializer.c) is called
by `createTable` but its source is not under src/.  The spec (section 4.D)
gives its output format: an ASCII string
`Schema with <n> attributes (name1: type1, ...) with keys (key1, ...)`
where a type prints as INT, FLOAT, STRING[n] or BOOL. -/
def serializeType (dt : DataType) (len : Nat) : String :=
  match dt with
  | DataType.DT_INT => "INT"
  | DataType.DT_FLOAT => "FLOAT"
  | DataType.DT_BOOL => "BOOL"
  | DataType.DT_STRING => "STRING[" ++ toString len ++ "]"

/-- Modelled from the spec: the attribute list portion
`name1: type1, name2: type2, ...` of the serialized schema. -/
def serializeAttrs (s : Schema) : String :=
  String.intercalate (", ")
    ((List.range s.numAttr).map (fun i =>
      s.attrNames.getD i ("") ++ (": ") ++
        serializeType (s.dataTypes.getD i DataType.DT_INT) (s.typeLength.getD i 0)))

/-- Modelled from the spec: the key list portion `key1, key2, ...` of the
serialized schema (key attribute names, comma separated). -/
def serializeKeys (s : Schema) : String :=
  String.intercalate (", ")
    ((List.range s.keySize).map (fun i => s.attrNames.getD (s.keyAttrs.getD i 0) ("")))

/-- Modelled from the spec: the full serialized schema string. -/
def serializeSchema (s : Schema) : String :=
  "Schema with <" ++ toString s.numAttr ++ "> attributes (" ++
    serializeAttrs s ++ ") with keys (" ++ serializeKeys s ++ ")"

/-- The four header integers `metadata[0..3]` assembled by `createTable`
(record_mgr.c lines 98-104): `fileMetadataSize` computed from the length of
the serialized schema, then `getRecordSize(schema) / 256`, then the
constant 256, then 0. -/
def createTableMetadata (s : Schema) : List Nat :=
  [((serializeSchema s).length + 4 * 4 - 1) / PAGE_SIZE + 1,
   getRecordSize s / 256,
   256,
   0]

/-- First 16 bytes of page 0 as written by `createTable` (lines 107-109):
the four metadata integers, each stored as a 4-byte little-endian value at
byte offset `i * sizeof(int)`. -/
def createTableHeaderBytes (s : Schema) : List Nat :=
  (createTableMetadata s).flatMap toLE4

/-! ### Page-metadata pages (src/record_mgr.c) -/

/-- Number of `(data_page_number, free_count)` pairs in a page-metadata
page: `PAGE_SIZE / (2 * sizeof(int))` (record_mgr.c line 1094). -/
def metadataEntriesPerPage : Nat := PAGE_SIZE / (2 * 4)

/-- Value of the 32-bit cell at cell index `c` (byte offset `4 * c`) of the
page-metadata block built by `addPageMetadataBlock` (record_mgr.c lines
1110-1122), where `tn` is `fileHandle->totalNumPages` after the
`appendEmptyBlock` call.  Pair `i` occupies cells `2i` (data page number)
and `2i+1` (capacity): every capacity cell is initialized to -1, pair `i`'s
page-number cell to `totalNumPages - metadataEntriesPerPage + i`, except
the last pair whose page-number cell is set to `totalNumPages - 1`. -/
def addPageMetadataCell (tn : Int) (c : Nat) : Int :=
  if c % 2 = 1 then -1
  else if c / 2 = metadataEntriesPerPage - 1 then tn - 1
  else tn - (metadataEntriesPerPage : Int) + (c / 2 : Nat)

/-- The 1024 int32 cells of the page written by `addPageMetadataBlock`. -/
def addPageMetadataBlockCells (tn : Int) : List Int :=
  (List.range (2 * metadataEntriesPerPage)).map (addPageMetadataCell tn)

/-- The value `insertRecord` reads as the forward pointer of a metadata
page: `memcpy(&p_meta_index, h->data + PAGE_SIZE - sizeof(int),
sizeof(int))` (record_mgr.c line 481), i.e. the last int32 cell of the
page — cell index 1023, the free-count field of the last pair. -/
def readForwardPtr (page : List Int) : Int :=
  page.getD (PAGE_SIZE / 4 - 1) 0

/-- The write `insertRecord` performs to link in a new metadata page:
`memcpy(h->data + PAGE_SIZE - sizeof(int), &rel->fh->totalNumPages,
sizeof(int))` (record_mgr.c line 503) — it overwrites the same last cell. -/
def writeForwardPtr (page : List Int) (v : Int) : List Int :=
  page.set (PAGE_SIZE / 4 - 1) v

/-- The chain walk of `insertRecord` (record_mgr.c lines 478-487): pin the
current metadata page, read its forward pointer from the last cell, follow
it while it is not -1.  Fuel-based; returns the page number of the last
metadata page of the chain. -/
def insertRecordChainWalk (disk : Int → List Int) : Nat → Int → Option Int
  | 0, _ => none
  | fuel + 1, p =>
      let fwd := readForwardPtr (disk p)
      if fwd ≠ -1 then insertRecordChainWalk disk fuel fwd else some p

/-! ### deleteRecord / getRecord slot access (src/record_mgr.c) -/

/-- Embedding of the slot write of `deleteRecord` (record_mgr.c line 568):
`memcpy(pageHandle->data + PAGE_SIZE * id.slot, deletedRecord,
sizeof(bool) + recordSize)` against a `PAGE_SIZE`-byte page buffer.  The
copied bytes are all zero.  If any destination byte falls outside the page
buffer the write is undefined behavior, modelled as `none`. -/
def deleteRecordSlotWrite (page : Nat → Int) (slot recordSize : Nat) :
    Option (Nat → Int) :=
  if PAGE_SIZE * slot + (1 + recordSize) ≤ PAGE_SIZE then
    some (fun j =>
      if PAGE_SIZE * slot ≤ j ∧ j < PAGE_SIZE * slot + (1 + recordSize) then 0
      else page j)
  else none

/-- The live flag `getRecord` inspects (record_mgr.c line 659):
`*(bool *)(pageHandle->data + 256 * recordID.slot)`. -/
def getRecordLiveFlag (page : Nat → Int) (slot : Nat) : Int :=
  page (256 * slot)

/-- Return code of `getRecord` as a function of the slot's live flag
(record_mgr.c lines 659-684): 0 means `RC_RM_RECORD_NOT_EXIST`, otherwise
the record is copied out and the call returns `RC_OK`. -/
def getRecordFlagRC (page : Nat → Int) (slot : Nat) : Int :=
  if getRecordLiveFlag page slot = 0 then RC_RM_RECORD_NOT_EXIST else RC_OK

/-- Concrete data page holding one live record at slot 1: `insertRecord`
wrote the live flag 1 at byte `256 * 1` and record bytes after it; all
other bytes are zero. -/
def pageWithLiveSlot1 : Nat → Int :=
  fun j => if j = 256 then 1 else 0

/-! ### openTable key-count loop (src/record_mgr.c lines 273-277) -/

/-- Embedding of the key-count loop of `openTable`:
`keyCount = 0; while (strchr(cursor, ',') != NULL) { keyCount++; }`.
The loop body never advances `cursor`, so the condition is re-evaluated on
the same string.  Fuel-based: `none` means the fuel ran out with the loop
still spinning. -/
def keyCountLoop (cursor : List Char) (keyCount : Nat) : Nat → Option Nat
  | 0 => none
  | fuel + 1 =>
      if cursor.contains ',' then keyCountLoop cursor (keyCount + 1) fuel
      else some keyCount

/-- The portion of the serialized schema the key-count loop scans: at that
point `cursor` has been advanced past the `(` that opens the key list, so
the remaining buffer is the key list followed by `)`. -/
def keysRegion (s : Schema) : List Char :=
  (serializeKeys s ++ ")").toList

/-- Two-attribute, two-key schema `(a: INT, b: INT)` with keys `(a, b)`,
the failing input for the key-count loop. -/
def schemaTwoKeys : Schema :=
  { numAttr := 2
    attrNames := ["a", "b"]
    dataTypes := [DataType.DT_INT, DataType.DT_INT]
    typeLength := [0, 0]
    keySize := 2
    keyAttrs := [0, 1] }

/-! ### Buffer manager (src/unnamed/part_000) -/

/-- Replacement strategies handled by this buffer manager
(`strategyFIFOandLRU` implements both). -/
inductive Strategy where
  | RS_FIFO
  | RS_LRU
deriving Repr, DecidableEq

/-- Byte contents of one page, as unbounded memory. -/
def PageData : Type := Nat → Int

/-- A page frame (a `BM_PageHandle` in the pool's `mgmtData` array):
resident page number (`NO_PAGE = -1` when empty), dirty flag, fix count,
the `strategyAttribute` stamp (a nullable int pointer, `none` = NULL), and
the page buffer (`none` = NULL, not yet allocated). -/
structure Frame where
  pageNum : Int
  dirty : Bool
  fixCounts : Int
  strategyAttribute : Option Int
  data : Option PageData

/-- Buffer pool state (`BM_BufferPool` together with the backing file):
frame array, strategy, `timer` tick, IO counters (named `numReadIO` /
`numWriteIO` in the source), the disk contents, and whether the pool is
currently initialized (its `mgmtData` not freed). -/
structure BPState where
  alive : Bool
  frames : List Frame
  strategy : Strategy
  timer : Int
  numReadOps : Int
  numWriteOps : Int
  disk : Int → PageData

/-- Caller-side `BM_PageHandle` as populated by `pinPage`; `data = none`
models a handle whose data pointer was never set. -/
structure BMPageHandle where
  pageNum : Int
  dirty : Bool
  fixCounts : Int
  data : Option PageData

/-- Apply `g` to the element at index `i`, identity out of range (the
effect of a C write through `&arr[i]`). -/
def updAt {α : Type} (g : α → α) : List α → Nat → List α
  | [], _ => []
  | x :: xs, 0 => g x :: xs
  | x :: xs, n + 1 => x :: updAt g xs n

/-- Index of the first frame whose `pageNum` equals `pn` — the search loop
shared by `unpinPage`, `markDirty` and `forcePage`. -/
def findPageIdx (pn : Int) : List Frame → Option Nat
  | [] => none
  | f :: fs => if f.pageNum = pn then some 0 else (findPageIdx pn fs).map (fun i => i + 1)

/-- Embedding of `unpinPage` (part_000 lines 173-186): decrement the fix
count of the first frame whose page number matches — with no underflow
guard; when no frame matches, do nothing.  The call always returns RC_OK. -/
def unpinPageStep (s : BPState) (pn : Int) : BPState :=
  match findPageIdx pn s.frames with
  | none => s
  | some i =>
      { s with frames := updAt (fun f => { f with fixCounts := f.fixCounts - 1 }) s.frames i }

/-- Guarded variant of `unpinPage` used to state the amended fix-count
invariant: the decrement is only legal while the matched frame's fix count
is positive (each unpin paired with an earlier pin); decrementing a frame
at fix count 0 — which the source would happily do — is rejected. -/
def unpinPageChk (s : BPState) (pn : Int) : Option BPState :=
  match findPageIdx pn s.frames with
  | none => some s
  | some i =>
      if 0 < ((s.frames.map Frame.fixCounts).getD i 0) then some (unpinPageStep s pn)
      else none

/-- Embedding of `markDirty` (lines 153-163): set the dirty flag of the
first matching frame, RC_PAGE_NOT_FOUND when the page is not resident. -/
def markDirtyStep (s : BPState) (pn : Int) : Int × BPState :=
  match findPageIdx pn s.frames with
  | none => (RC_PAGE_NOT_FOUND, s)
  | some i =>
      (RC_OK, { s with frames := updAt (fun f => { f with dirty := true }) s.frames i })

/-- Clear the dirty flag of the first frame holding page `pn` — the reset
loop at the end of `forcePage` (lines 214-222). -/
def clearDirtyFirst (pn : Int) : List Frame → List Frame
  | [] => []
  | f :: fs =>
      if f.pageNum = pn then { f with dirty := false } :: fs
      else f :: clearDirtyFirst pn fs

/-- Embedding of `forcePage` (lines 195-228) applied to frame `i` of the
pool itself (the call sites in `pinPage` and `forceFlushPool` pass
`&bm->mgmtData[i]`): write the frame's buffer to its page number on disk
(`fwrite` from a NULL buffer is undefined behavior), `numWriteIO++`, clear
the dirty flag of the first frame holding that page number, and clear the
dirty flag of the passed frame. -/
def forcePageFrame (s : BPState) (i : Nat) : Option BPState :=
  match s.frames.get? i with
  | none => none
  | some fr =>
      match fr.data with
      | none => none
      | some pd =>
          let disk2 : Int → PageData := fun p => if p = fr.pageNum then pd else s.disk p
          let frames2 := updAt (fun f => { f with dirty := false })
            (clearDirtyFirst fr.pageNum s.frames) i
          some { s with disk := disk2, numWriteOps := s.numWriteOps + 1, frames := frames2 }

/-- Array of the frames' `strategyAttribute` stamps as read by
`getAttributionArray` (lines 500-521); dereferencing a NULL stamp is
undefined behavior, hence `none`. -/
def getAttributionArray (frames : List Frame) : Option (List Int) :=
  frames.mapM Frame.strategyAttribute

/-- Victim-selection loop of `strategyFIFOandLRU` (lines 461-473): scan all
frames; among those with fix count 0 track the smallest stamp strictly
below the running minimum, which starts at the pool's `timer`; the victim
starts out as -1 (`none` here).  Returns the final (minimum, victim). -/
def selectVictim : List Int → List Int → Int → Option Nat → Nat → Int × Option Nat
  | a :: as, fx :: fxs, lowest, best, i =>
      if fx = 0 ∧ a < lowest then selectVictim as fxs a (some i) (i + 1)
      else selectVictim as fxs lowest best (i + 1)
  | _, _, lowest, best, _ => (lowest, best)

/-- Embedding of `strategyFIFOandLRU` (lines 455-491): read the stamp and
fix-count arrays, run the selection loop, then — when `timer > 32000` and a
victim was found — normalize every non-NULL stamp and the timer by the
victim's stamp.  Outer `none` models the undefined behavior of
`getAttributionArray` dereferencing a NULL stamp; the inner option is the
returned victim index (`none` = -1, no unpinned frame). -/
def strategyFIFOandLRU (s : BPState) : Option (Option Nat × BPState) :=
  match getAttributionArray s.frames with
  | none => none
  | some attrs =>
      let res := selectVictim attrs (s.frames.map Frame.fixCounts) s.timer none 0
      if s.timer > 32000 ∧ res.2 ≠ none then
        some (res.2,
          { s with
              frames := s.frames.map (fun f =>
                { f with strategyAttribute := f.strategyAttribute.map (fun x => x - res.1) })
              timer := s.timer - res.1 })
      else some (res.2, s)

/-- Result of the frame-search loop at the top of `pinPage` (lines
246-287): the first empty frame, else the frame already holding the page,
else eviction (reached at the last index), else — when the pool has zero
frames and the loop body never runs — nothing at all. -/
inductive PinFindRes where
  | empty (i : Nat)
  | found (i : Nat)
  | evict
  | noFrames
deriving Repr, DecidableEq

/-- Shift the frame index of a search result by one. -/
def shiftRes : PinFindRes → PinFindRes
  | .empty i => .empty (i + 1)
  | .found i => .found (i + 1)
  | r => r

/-- The frame-search loop of `pinPage`: check for an empty slot first, then
for the requested page; the eviction branch fires at the last index when
neither was found anywhere. -/
def pinFind (pn : Int) : List Frame → PinFindRes
  | [] => .noFrames
  | f :: fs =>
      if f.pageNum = -1 then .empty 0
      else if f.pageNum = pn then .found 0
      else
        match pinFind pn fs with
        | .noFrames => .evict
        | r => shiftRes r

/-- Tail of `pinPage` for `flag == 1` (lines 290-318): read the page from
disk into frame `i`'s buffer (a fresh zero buffer in the empty case, the
reused victim buffer in the eviction case — either way the `fread`
overwrites the full page), `numReadIO++`, increment the fix count, store
the page number, populate the handle, then set the stamp (allocating it if
NULL) to `timer++`. -/
def pinLoadFrame (s : BPState) (i : Nat) (pn : Int) : Option (BPState × BMPageHandle) :=
  match s.frames.get? i with
  | none => none
  | some fr =>
      let handle : BMPageHandle :=
        { pageNum := pn
          dirty := fr.dirty
          fixCounts := fr.fixCounts + 1
          data := some (s.disk pn) }
      some ({ s with
          frames := updAt (fun f =>
            { f with
                data := some (s.disk pn)
                fixCounts := f.fixCounts + 1
                pageNum := pn
                strategyAttribute := some s.timer }) s.frames i
          numReadOps := s.numReadOps + 1
          timer := s.timer + 1 }, handle)

/-- Embedding of `pinPage` (part_000 lines 240-330).  In the found case,
under LRU the frame's stamp is refreshed to `timer++` inside the loop, then
the fix count is incremented and the handle populated.  In the eviction
case the victim chosen by `strategyFIFOandLRU` is written back first when
dirty; a victim index of -1 makes the source read `mgmtData[-1]`, which is
out of bounds — undefined behavior, `none` here. -/
def pinPageStep (s : BPState) (pn : Int) : Option (BPState × BMPageHandle) :=
  match pinFind pn s.frames with
  | .noFrames =>
      some (s, { pageNum := 0, dirty := false, fixCounts := 0, data := none })
  | .empty i => pinLoadFrame s i pn
  | .found i =>
      let s1 :=
        if s.strategy = Strategy.RS_LRU then
          { s with
              frames := updAt (fun f => { f with strategyAttribute := some s.timer }) s.frames i
              timer := s.timer + 1 }
        else s
      match s1.frames.get? i with
      | none => none
      | some fr =>
          some ({ s1 with
            frames := updAt (fun f => { f with fixCounts := f.fixCounts + 1 }) s1.frames i },
            { pageNum := pn, dirty := fr.dirty, fixCounts := fr.fixCounts + 1, data := fr.data })
  | .evict =>
      match strategyFIFOandLRU s with
      | none => none
      | some (none, _) => none
      | some (some v, s1) =>
          match s1.frames.get? v with
          | none => none
          | some vf =>
              if vf.dirty then
                match forcePageFrame s1 v with
                | none => none
                | some s2 => pinLoadFrame s2 v pn
              else pinLoadFrame s1 v pn

/-- Dirty-flag array as computed by `getDirtyFlags` (lines 368-393): a
frame whose data buffer is NULL reports not-dirty. -/
def getDirtyFlagsArr (frames : List Frame) : List Bool :=
  frames.map (fun f => if f.data.isSome then f.dirty else false)

/-- Fix-count array as computed by `getFixCounts` (lines 403-419). -/
def getFixCountsArr (frames : List Frame) : List Int :=
  frames.map Frame.fixCounts

/-- Frame contents as computed by `getFrameContents` (lines 341-360):
the resident page number when the frame's buffer is set, `NO_PAGE`
otherwise. -/
def getFrameContentsArr (frames : List Frame) : List Int :=
  frames.map (fun f => if f.data.isSome then f.pageNum else -1)

/-- Loop of `forceFlushPool` (lines 123-135) over the snapshot of
(dirty flag, fix count) pairs taken at entry: force every dirty unpinned
frame to disk and reset its dirty flag. -/
def flushLoop (s : BPState) : List (Bool × Int) → Nat → Option BPState
  | [], _ => some s
  | (d, fx) :: rest, i =>
      if d ∧ fx = 0 then
        match forcePageFrame s i with
        | none => none
        | some s2 =>
            flushLoop
              { s2 with frames := updAt (fun f => { f with dirty := false }) s2.frames i }
              rest (i + 1)
      else flushLoop s rest (i + 1)

/-- Embedding of `forceFlushPool` (lines 109-141). -/
def forceFlushPoolStep (s : BPState) : Option BPState :=
  flushLoop s ((getDirtyFlagsArr s.frames).zip (getFixCountsArr s.frames)) 0

/-- Embedding of `shutdownBufferPool` (lines 73-99): fail with
`RC_SHUTDOWN_POOL_FAILED` when any fix count is nonzero, leaving the pool
untouched; otherwise force-flush, free every frame buffer and stamp, and
free the frame array (the pool is no longer usable). -/
def shutdownStep (s : BPState) : Option (Int × BPState) :=
  if s.frames.any (fun f => f.fixCounts ≠ 0) then some (RC_SHUTDOWN_POOL_FAILED, s)
  else
    match forceFlushPoolStep s with
    | none => none
    | some s2 =>
        some (RC_OK, { s2 with
          alive := false
          frames := s2.frames.map (fun f =>
            { f with data := none, strategyAttribute := none }) })

/-- A frame as initialized by `initBufferPool` (lines 48-54). -/
def emptyFrame : Frame :=
  { pageNum := -1, dirty := false, fixCounts := 0, strategyAttribute := none, data := none }

/-- Embedding of `initBufferPool` (lines 22-63); the backing file is
required to exist, which the model assumes. -/
def initPoolStep (s : BPState) (n : Nat) (strat : Strategy) : BPState :=
  { alive := true
    frames := List.replicate n emptyFrame
    strategy := strat
    timer := 0
    numReadOps := 0
    numWriteOps := 0
    disk := s.disk }

/-- User-level `forcePage` with the handle identified by its page number
(the handle's data pointer aliases the frame buffer); forcing a page no
frame holds would write through a stale pointer — undefined behavior. -/
def forcePageOp (s : BPState) (pn : Int) : Option BPState :=
  match findPageIdx pn s.frames with
  | none => none
  | some i => forcePageFrame s i

/-- The buffer-pool operations named by the reachability claim.  Page
handles are identified by the page number they carry. -/
inductive BPOp where
  | init (n : Nat) (strat : Strategy)
  | pin (pn : Int)
  | unpin (pn : Int)
  | markDirty (pn : Int)
  | force (pn : Int)
  | flush
  | shutdown

/-- One step of the buffer-pool state machine, exactly as the source
behaves (no unpin guard).  Operations on a pool that was never initialized
or already shut down touch freed memory — undefined behavior. -/
def stepBP (s : BPState) : BPOp → Option BPState
  | .init n strat => some (initPoolStep s n strat)
  | .pin pn => if s.alive then (pinPageStep s pn).map Prod.fst else none
  | .unpin pn => if s.alive then some (unpinPageStep s pn) else none
  | .markDirty pn => if s.alive then some (markDirtyStep s pn).2 else none
  | .force pn => if s.alive then forcePageOp s pn else none
  | .flush => if s.alive then forceFlushPoolStep s else none
  | .shutdown => if s.alive then (shutdownStep s).map Prod.snd else none

/-- One step of the guarded state machine: identical to `stepBP` except
that `unpin` must hit a frame with a positive fix count. -/
def stepBPG (s : BPState) : BPOp → Option BPState
  | .init n strat => some (initPoolStep s n strat)
  | .pin pn => if s.alive then (pinPageStep s pn).map Prod.fst else none
  | .unpin pn => if s.alive then unpinPageChk s pn else none
  | .markDirty pn => if s.alive then some (markDirtyStep s pn).2 else none
  | .force pn => if s.alive then forcePageOp s pn else none
  | .flush => if s.alive then forceFlushPoolStep s else none
  | .shutdown => if s.alive then (shutdownStep s).map Prod.snd else none

/-- Run a raw operation sequence. -/
def runBP : BPState → List BPOp → Option BPState
  | s, [] => some s
  | s, op :: ops =>
      match stepBP s op with
      | none => none
      | some s2 => runBP s2 ops

/-- Run a guarded operation sequence. -/
def runBPG : BPState → List BPOp → Option BPState
  | s, [] => some s
  | s, op :: ops =>
      match stepBPG s op with
      | none => none
      | some s2 => runBPG s2 ops

/-- All-zero disk contents. -/
def zeroDisk : Int → PageData := fun _ => fun _ => 0

/-- State before `initBufferPool` has ever run, over an all-zero file. -/
def bpStart : BPState :=
  { alive := false
    frames := []
    strategy := Strategy.RS_FIFO
    timer := 0
    numReadOps := 0
    numWriteOps := 0
    disk := zeroDisk }

/-- Fix-count array of a run result. -/
def fixCountsOf (r : Option BPState) : Option (List Int) :=
  r.map (fun s => getFixCountsArr s.frames)

/-- Frame-contents array of a run result. -/
def frameContentsOf (r : Option BPState) : Option (List Int) :=
  r.map (fun s => getFrameContentsArr s.frames)

/-- Embedding of `getRecord` (record_mgr.c lines 639-686) at the
buffer-pool level: pin the record's page, read the live flag at byte
`256 * slot` of the pinned data; if it is zero, free the handle and return
`RC_RM_RECORD_NOT_EXIST` — without unpinning; otherwise copy the record
out, unpin, and return `RC_OK`. -/
def getRecordModel (s : BPState) (pg : Int) (slot : Nat) : Option (Int × BPState) :=
  match pinPageStep s pg with
  | none => none
  | some (s1, h) =>
      match h.data with
      | none => none
      | some pd =>
          if pd (256 * slot) = 0 then some (RC_RM_RECORD_NOT_EXIST, s1)
          else some (RC_OK, unpinPageStep s1 pg)

/-- Concrete pool for the all-pinned pin scenario: one frame holding page 0
with fix count 1 (pinned), LRU, over an all-zero file. -/
def allPinnedPool : BPState :=
  { alive := true
    frames := [{ pageNum := 0
                 dirty := false
                 fixCounts := 1
                 strategyAttribute := some 0
                 data := some (zeroDisk 0) }]
    strategy := Strategy.RS_LRU
    timer := 1
    numReadOps := 1
    numWriteOps := 0
    disk := zeroDisk }

/-- Freshly initialized one-frame LRU pool over an all-zero file (every
slot's live flag is 0). -/
def onePoolEmptyFile : BPState :=
  { alive := true
    frames := [emptyFrame]
    strategy := Strategy.RS_LRU
    timer := 0
    numReadOps := 0
    numWriteOps := 0
    disk := zeroDisk }

/-- Disk holding a live record at page 3, slot 0: the slot's live flag
(byte 0 of page 3) is 1. -/
def diskLiveAt3 : Int → PageData :=
  fun p => fun j => if p = 3 ∧ j = 0 then 1 else 0

/-- Freshly initialized one-frame LRU pool over `diskLiveAt3`. -/
def onePoolLiveFile : BPState :=
  { alive := true
    frames := [emptyFrame]
    strategy := Strategy.RS_LRU
    timer := 0
    numReadOps := 0
    numWriteOps := 0
    disk := diskLiveAt3 }

/-- Increment the entry at index `i` of an integer list (the shape of a
fix-count array after one successful pin). -/
def bumpAt (l : List Int) (i : Nat) : List Int :=
  updAt (fun x => x + 1) l i

/-- One-INT-attribute schema `(a: INT)` with key `a` — its record size is
4 bytes. -/
def schemaOneInt : Schema :=
  { numAttr := 1
    attrNames := ["a"]
    dataTypes := [DataType.DT_INT]
    typeLength := [0]
    keySize := 1
    keyAttrs := [0] }

/-- Schema `(a: INT, b: STRING[4])` with key `a` — the schema of scenario
E7; its record size is 8 bytes and its string attribute is last. -/
def schemaIntStr : Schema :=
  { numAttr := 2
    attrNames := ["a", "b"]
    dataTypes := [DataType.DT_INT, DataType.DT_STRING]
    typeLength := [0, 4]
    keySize := 1
    keyAttrs := [0] }

/-- Pool state right after `initBufferPool(pool, file, 1, RS_LRU, NULL)`
over an all-zero file. -/
def oneFrameFreshPool : BPState :=
  { alive := true
    frames := List.replicate 1 emptyFrame
    strategy := Strategy.RS_LRU
    timer := 0
    numReadOps := 0
    numWriteOps := 0
    disk := zeroDisk }

/-- Twin of `findPageIdx` on a bare list of page numbers: index of the
first entry equal to `pn`. -/
def pnIdx (pn : Int) : List Int → Option Nat
  | [] => none
  | x :: xs => if x = pn then some 0 else (pnIdx pn xs).map (fun i => i + 1)

/-! ### Helper lemmas -/

/-- A `getD` read of a mapped range picks out the function value. -/
theorem getD_map_range (f : Nat → Int) (n k : Nat) (hk : k < n) :
    ((List.range n).map f).getD k 0 = f k := by
  rw [List.getD_eq_getElem?_getD, List.getElem?_map, List.getElem?_range hk]
  rfl

/-- A `getD` read of an in-bounds `set` returns the written value. -/
theorem getD_set_self (l : List Int) (i : Nat) (v : Int) (hi : i < l.length) :
    (l.set i v).getD i 0 = v := by
  rw [List.getD_eq_getElem?_getD, List.getElem?_set_self hi]
  rfl

/-- The key-count loop of `openTable` never terminates on a buffer that
contains a comma, whatever the fuel: the loop body does not advance the
cursor. -/
theorem keyCountLoop_spins (l : List Char) (hc : l.contains ',' = true) :
    ∀ (fuel k : Nat), keyCountLoop l k fuel = none := by
  intro fuel
  induction fuel with
  | zero => intro k; rfl
  | succ m ih =>
      intro k
      simp only [keyCountLoop, hc, if_true]
      exact ih (k + 1)

/-! ### Claim C9 — readPreviousBlock at position 0 -/

/-- C9: for every open page-file handle whose current position is 0,
`readPreviousBlock` returns `RC_READ_NON_EXISTING_PAGE` and leaves the
handle unchanged: either the position-validity check fails outright (empty
file), or the seek to byte offset `(0 - 1) * PAGE_SIZE = -4096` fails and
the error path returns before the position is updated. -/
theorem C9_readPrevious_at_zero (h : SMFileHandle) (fileBytes : Int)
    (h0 : h.curPagePos = 0) :
    readPreviousBlock h fileBytes = (RC_READ_NON_EXISTING_PAGE, h) := by
  unfold readPreviousBlock
  rw [h0]
  by_cases ht : (0:Int) ≤ h.totalNumPages - 1
  · rw [if_neg (by simp [ht])]
    norm_num [PAGE_SIZE]
  · rw [if_pos (by simp [ht])]

/-- Witness for C9 at the one-page file of scenario E1. -/
theorem C9_readPrevious_at_zero_witness :
    (({ totalNumPages := 1, curPagePos := 0 } : SMFileHandle).curPagePos = 0)
    ∧ readPreviousBlock { totalNumPages := 1, curPagePos := 0 } 4096
        = (RC_READ_NON_EXISTING_PAGE, { totalNumPages := 1, curPagePos := 0 }) :=
  ⟨rfl, C9_readPrevious_at_zero { totalNumPages := 1, curPagePos := 0 } 4096 rfl⟩

/-! ### Claim C10 — setAttr string null terminator -/

/-- C10: writing a string attribute `i` of declared length `n` makes
`setAttr` store a null byte at `offset(i) + n`: that position is exactly
the first byte of attribute `i + 1`, and when `i` is the last attribute it
equals `getRecordSize(schema)` — one byte past the record buffer; hence a
record byte outside attribute `i` (with a nonzero value) is changed. -/
theorem C10_setAttr_string_overflow (s : Schema) (i n : Nat) (src : List Int)
    (data : Nat → Int) (hi : i < s.numAttr)
    (ht : s.dataTypes.getD i DataType.DT_INT = DataType.DT_STRING)
    (hl : s.typeLength.getD i 0 = n) :
    setAttrString data (attrOffset s i) src n (attrOffset s i + n) = 0
    ∧ attrOffset s (i + 1) = attrOffset s i + n
    ∧ (i + 1 = s.numAttr → attrOffset s i + n = getRecordSize s)
    ∧ (data (attrOffset s i + n) ≠ 0 →
        setAttrString data (attrOffset s i) src n (attrOffset s i + n)
          ≠ data (attrOffset s i + n)) := by
  have h1 : setAttrString data (attrOffset s i) src n (attrOffset s i + n) = 0 := by
    simp [setAttrString]
  have h2 : attrOffset s (i + 1) = attrOffset s i + n := by
    have hs : attrSizeAt s i = n := by
      unfold attrSizeAt
      rw [ht]
      exact hl
    unfold attrOffset
    rw [List.range_succ, List.foldl_append]
    simp [hs]
  have h3 : i + 1 = s.numAttr → attrOffset s i + n = getRecordSize s := by
    intro hlast
    have hg : getRecordSize s = attrOffset s s.numAttr := rfl
    rw [hg, ← hlast, h2]
  refine ⟨h1, h2, h3, fun hnz => ?_⟩
  rw [h1]
  exact fun c => hnz c.symm

/-- Witness for C10 at the E7 schema `(a: INT, b: STRING[4])`, writing its
last attribute: the terminator lands at byte 8 = getRecordSize. -/
theorem C10_setAttr_string_overflow_witness :
    (1 < schemaIntStr.numAttr)
    ∧ (schemaIntStr.dataTypes.getD 1 DataType.DT_INT = DataType.DT_STRING)
    ∧ (schemaIntStr.typeLength.getD 1 0 = 4)
    ∧ (setAttrString (fun _ => 1) (attrOffset schemaIntStr 1) [65, 66, 67, 68] 4
          (attrOffset schemaIntStr 1 + 4) = 0
      ∧ attrOffset schemaIntStr (1 + 1) = attrOffset schemaIntStr 1 + 4
      ∧ (1 + 1 = schemaIntStr.numAttr →
          attrOffset schemaIntStr 1 + 4 = getRecordSize schemaIntStr)
      ∧ ((fun _ => (1:Int)) (attrOffset schemaIntStr 1 + 4) ≠ 0 →
          setAttrString (fun _ => 1) (attrOffset schemaIntStr 1) [65, 66, 67, 68] 4
            (attrOffset schemaIntStr 1 + 4) ≠ (fun _ => (1:Int)) (attrOffset schemaIntStr 1 + 4))) :=
  ⟨by decide, by decide, by decide,
    C10_setAttr_string_overflow schemaIntStr 1 4 [65, 66, 67, 68] (fun _ => 1)
      (by decide) (by decide) (by decide)⟩

/-! ### Claim C3 — createTable header, byte offset 4 -/

/-- C3 counterexample: for the one-INT schema, the value `createTable`
stores at byte offset 4 of page 0 is `getRecordSize/256 = 4/256 = 0`, not
`PAGE_SIZE / slot_size = 16`. -/
theorem C3_counterexample_header_offset4 :
    readInt32At (createTableHeaderBytes schemaOneInt) 4 = 0
    ∧ (0 : Nat) ≠ PAGE_SIZE / 256 :=
  ⟨by rfl, by decide⟩

/-- C3 amended: `createTable` stores at byte offset 4 of the page-0 header
the value `getRecordSize(schema) / 256` (the record size measured in
256-byte slots, which is 0 for any schema whose record is shorter than 256
bytes) — not `PAGE_SIZE / slot_size`. -/
theorem C3_amended_header_offset4 (s : Schema)
    (hb : getRecordSize s / 256 < 4294967296) :
    readInt32At (createTableHeaderBytes s) 4 = getRecordSize s / 256 := by
  have hshape : readInt32At (createTableHeaderBytes s) 4 =
      getRecordSize s / 256 % 256
      + 256 * (getRecordSize s / 256 / 256 % 256)
      + 65536 * (getRecordSize s / 256 / 65536 % 256)
      + 16777216 * (getRecordSize s / 256 / 16777216 % 256) := rfl
  rw [hshape]
  omega

/-- Witness for the amended C3 at the one-INT schema. -/
theorem C3_amended_header_offset4_witness :
    (getRecordSize schemaOneInt / 256 < 4294967296)
    ∧ readInt32At (createTableHeaderBytes schemaOneInt) 4
        = getRecordSize schemaOneInt / 256 :=
  ⟨by decide, C3_amended_header_offset4 schemaOneInt (by decide)⟩

/-! ### Claim C4 — metadata-page forward pointer -/

/-- C4 counterexample: on the metadata page built by `addPageMetadataBlock`
when `totalNumPages = 2` (the first metadata page laid down by
`createTable`), the data-page-number field of the very last pair — cell
1022, byte offset PAGE_SIZE − 8 — holds `totalNumPages − 1 = 1`, not the
claimed chain terminator −1. -/
theorem C4_counterexample_last_pair_pageNum :
    (addPageMetadataBlockCells 2).getD 1022 0 = 1 ∧ ((1:Int) ≠ -1) :=
  ⟨by rfl, by decide⟩

/-- C4 amended: the forward pointer of a page-metadata page lives in the
free-count field of its very last pair (the final int32 of the page, byte
offset PAGE_SIZE − 4), not in its data-page-number field:
`addPageMetadataBlock` initializes that final cell to −1 (every free-count
cell is set to −1) while setting the last pair's data-page-number cell to
the metadata page's own page number `totalNumPages − 1`; `insertRecord`
reads the chain's forward pointers from that final cell and writes the
page number of a newly linked metadata page into it. -/
theorem C4_amended_forward_pointer (tn : Int) (page : List Int) (v : Int)
    (hlen : page.length = PAGE_SIZE / 4) :
    readForwardPtr (addPageMetadataBlockCells tn) = -1
    ∧ (addPageMetadataBlockCells tn).getD 1022 0 = tn - 1
    ∧ readForwardPtr (writeForwardPtr page v) = v
    ∧ (∀ (disk : Int → List Int) (p : Int) (fuel : Nat),
        readForwardPtr (disk p) = -1 →
          insertRecordChainWalk disk (fuel + 1) p = some p) := by
  have hcell : ∀ c : Nat, c < 1024 →
      (addPageMetadataBlockCells tn).getD c 0 = addPageMetadataCell tn c := by
    intro c hc
    unfold addPageMetadataBlockCells
    have e1 : 2 * metadataEntriesPerPage = 1024 := by decide
    rw [e1]
    exact getD_map_range _ _ _ hc
  refine ⟨?_, ?_, ?_, ?_⟩
  · have e2 : PAGE_SIZE / 4 - 1 = 1023 := by decide
    unfold readForwardPtr
    rw [e2, hcell 1023 (by norm_num)]
    unfold addPageMetadataCell
    norm_num
  · rw [hcell 1022 (by norm_num)]
    unfold addPageMetadataCell
    norm_num [metadataEntriesPerPage, PAGE_SIZE]
  · unfold readForwardPtr writeForwardPtr
    apply getD_set_self
    rw [hlen]
    decide
  · intro disk p fuel hfwd
    simp [insertRecordChainWalk, hfwd]

/-- Witness for the amended C4: the first metadata page of a fresh table
(`totalNumPages = 2`) ends the chain, its last pair's page-number field is
1, and a forward-pointer write is read back. -/
theorem C4_amended_forward_pointer_witness :
    ((addPageMetadataBlockCells 2).length = PAGE_SIZE / 4)
    ∧ (readForwardPtr (addPageMetadataBlockCells 2) = -1
      ∧ (addPageMetadataBlockCells 2).getD 1022 0 = 2 - 1
      ∧ readForwardPtr (writeForwardPtr (addPageMetadataBlockCells 2) 5) = 5
      ∧ (∀ (disk : Int → List Int) (p : Int) (fuel : Nat),
          readForwardPtr (disk p) = -1 →
            insertRecordChainWalk disk (fuel + 1) p = some p)) :=
  ⟨by rfl, C4_amended_forward_pointer 2 (addPageMetadataBlockCells 2) 5 (by rfl)⟩

/-! ### Claim C5 — deleteRecord then getRecord -/

/-- C5: the failing input evaluated on the code.  For a live record at
slot 1 (live flag 1 at byte 256, as `insertRecord` writes it),
`deleteRecord`'s slot write targets bytes `PAGE_SIZE * 1 .. PAGE_SIZE * 1 +
recordSize` — entirely outside the 4096-byte page, undefined behavior —
and the live flag at byte 256 is untouched, so `getRecord` still sees a
live record and returns `RC_OK` rather than `RC_RM_RECORD_NOT_EXIST`. -/
theorem C5_delete_slot1_out_of_bounds :
    deleteRecordSlotWrite pageWithLiveSlot1 1 (getRecordSize schemaIntStr) = none
    ∧ getRecordLiveFlag pageWithLiveSlot1 1 = 1
    ∧ getRecordFlagRC pageWithLiveSlot1 1 = RC_OK :=
  ⟨by rfl, by rfl, by rfl⟩

/-! ### Claim C6 — LRU eviction order (scenario E4) -/

/-- C6: a 3-frame LRU pool, starting from init: pin 1, unpin 1, pin 2,
unpin 2, pin 3, unpin 3, re-pin 1, unpin 1, pin 4.  The frame contents end
up `[1, 4, 3]`: page 2 — least recently used — was the eviction victim. -/
theorem C6_lru_eviction_trace :
    frameContentsOf (runBP bpStart
      [BPOp.init 3 Strategy.RS_LRU, BPOp.pin 1, BPOp.unpin 1, BPOp.pin 2, BPOp.unpin 2,
       BPOp.pin 3, BPOp.unpin 3, BPOp.pin 1, BPOp.unpin 1, BPOp.pin 4])
      = some [1, 4, 3] := by decide

/-! ### Claim C7 — openTable key parsing -/

/-- C7: the failing loop evaluated on the code.  For a table whose schema
has two key attributes, the remaining buffer when `openTable` reaches its
key-count loop is the key list `a, b)`, which contains a comma; since
`while (strchr(cursor, ',') != NULL) keyCount++;` never advances the
cursor, the loop never exits — `openTable` does not terminate, for any
amount of fuel. -/
theorem C7_openTable_keycount_diverges :
    ∀ fuel : Nat, keyCountLoop (keysRegion schemaTwoKeys) 0 fuel = none :=
  fun fuel => keyCountLoop_spins (keysRegion schemaTwoKeys) (by decide) fuel 0

/-! ### Claim C1 / C8 counterexamples -/

/-- C1 counterexample: the state reached by initBufferPool (one frame,
LRU), pinPage(0), unpinPage(0), unpinPage(0) — a sequence of the listed
operations — has fix-count array `[-1]`: the second unpin drives the frame
fix count below zero, since `unpinPage` decrements without a guard. -/
theorem C1_counterexample_double_unpin :
    fixCountsOf (runBP bpStart
      [BPOp.init 1 Strategy.RS_LRU, BPOp.pin 0, BPOp.unpin 0, BPOp.unpin 0]) = some [-1]
    ∧ ¬ ((0:Int) ≤ -1) :=
  ⟨by decide, by decide⟩

/-- C8 counterexample: on a fresh one-frame pool over an all-zero file,
`getRecord` for (page 3, slot 0) takes the `RC_RM_RECORD_NOT_EXIST` path
and returns with the frame's fix count raised from 0 to 1 — the pin
performed on entry is never released on that path. -/
theorem C8_counterexample_leaked_pin :
    (getRecordModel onePoolEmptyFile 3 0).map (fun r => (r.1, getFixCountsArr r.2.frames))
      = some (RC_RM_RECORD_NOT_EXIST, [1])
    ∧ getFixCountsArr onePoolEmptyFile.frames = [0] :=
  ⟨by decide, by decide⟩

/-- A successful `get?` is in bounds. -/
theorem get?_some_lt {α : Type} (l : List α) (i : Nat) (x : α)
    (h : l.get? i = some x) : i < l.length := by
  by_contra hc
  rw [List.get?_eq_none.mpr (Nat.le_of_not_lt hc)] at h
  cases h

/-- An in-bounds `getD` read is a member of the list. -/
theorem getD_mem_of_lt (l : List Int) (i : Nat) (hi : i < l.length) :
    l.getD i 0 ∈ l := by
  induction l generalizing i with
  | nil => cases hi
  | cons x xs ih =>
      cases i with
      | zero => exact List.mem_cons_self x xs
      | succ n => exact List.mem_cons_of_mem x (ih n (Nat.lt_of_succ_lt_succ hi))

/-- Mapping commutes with a pointwise update when the projection carries
the update to one on the image. -/
theorem map_updAt_comm {α β : Type} (g : α → α) (g2 : β → β) (h : α → β)
    (hcomm : ∀ x, h (g x) = g2 (h x)) :
    ∀ (l : List α) (i : Nat), (updAt g l i).map h = updAt g2 (l.map h) i := by
  intro l
  induction l with
  | nil => intro i; rfl
  | cons x xs ih =>
      intro i
      cases i with
      | zero => simp [updAt, hcomm]
      | succ n => simp [updAt, ih n]

/-- Mapping is unchanged by a pointwise update the projection ignores. -/
theorem map_updAt_id {α β : Type} (g : α → α) (h : α → β)
    (hpres : ∀ x, h (g x) = h x) :
    ∀ (l : List α) (i : Nat), (updAt g l i).map h = l.map h := by
  intro l
  induction l with
  | nil => intro i; rfl
  | cons x xs ih =>
      intro i
      cases i with
      | zero => simp [updAt, hpres]
      | succ n => simp [updAt, ih n]

/-- `updAt` keeps the prefix before the updated index. -/
theorem updAt_take {α : Type} (g : α → α) :
    ∀ (l : List α) (i : Nat), (updAt g l i).take i = l.take i := by
  intro l
  induction l with
  | nil => intro i; rfl
  | cons x xs ih =>
      intro i
      cases i with
      | zero => rfl
      | succ n => simp [updAt, ih n]

/-- Reading the updated index through `get?`. -/
theorem updAt_get?_self {α : Type} (g : α → α) :
    ∀ (l : List α) (i : Nat), (updAt g l i).get? i = (l.get? i).map g := by
  intro l
  induction l with
  | nil => intro i; cases i <;> rfl
  | cons x xs ih =>
      intro i
      cases i with
      | zero => rfl
      | succ n => simpa [updAt] using ih n

/-- Two updates at the same index compose. -/
theorem updAt_updAt_same {α : Type} (g1 g2 : α → α) :
    ∀ (l : List α) (i : Nat), updAt g2 (updAt g1 l i) i = updAt (fun x => g2 (g1 x)) l i := by
  intro l
  induction l with
  | nil => intro i; rfl
  | cons x xs ih =>
      intro i
      cases i with
      | zero => rfl
      | succ n => simp [updAt, ih n]

/-- A pointwise-identity update is the identity. -/
theorem updAt_id_ext {α : Type} (g : α → α) (hid : ∀ x, g x = x) :
    ∀ (l : List α) (i : Nat), updAt g l i = l := by
  intro l
  induction l with
  | nil => intro i; rfl
  | cons x xs ih =>
      intro i
      cases i with
      | zero => simp [updAt, hid]
      | succ n => simp [updAt, ih n]

/-- Members of an updated integer list: either an original member, or the
image of the in-bounds entry at the updated index. -/
theorem mem_updAt_int (g : Int → Int) :
    ∀ (l : List Int) (i : Nat) (x : Int), x ∈ updAt g l i →
      x ∈ l ∨ (i < l.length ∧ x = g (l.getD i 0)) := by
  intro l
  induction l with
  | nil => intro i x hx; simp [updAt] at hx
  | cons y ys ih =>
      intro i x hx
      cases i with
      | zero =>
          simp [updAt] at hx
          rcases hx with h1 | h2
          · right
            exact ⟨Nat.succ_pos _, by simp [h1]⟩
          · left
            exact List.mem_cons_of_mem y h2
      | succ n =>
          simp [updAt] at hx
          rcases hx with h1 | h2
          · left
            simp [h1]
          · rcases ih n x h2 with h3 | ⟨hn, he⟩
            · exact Or.inl (List.mem_cons_of_mem y h3)
            · right
              exact ⟨Nat.succ_lt_succ hn, by simpa using he⟩

/-- `pnIdx` finds index `i` when the prefix misses `pn` and entry `i` is
`pn`. -/
theorem pnIdx_some_of (pn : Int) :
    ∀ (l : List Int) (i : Nat), (∀ x ∈ l.take i, x ≠ pn) → l.get? i = some pn →
      pnIdx pn l = some i := by
  intro l
  induction l with
  | nil => intro i hpre hg; cases i <;> cases hg
  | cons y ys ih =>
      intro i hpre hg
      cases i with
      | zero =>
          have : y = pn := by simpa using hg
          simp [pnIdx, this]
      | succ n =>
          have hy : y ≠ pn := hpre y (by simp [List.take_succ_cons])
          have hrest : ∀ x ∈ ys.take n, x ≠ pn := by
            intro x hx
            exact hpre x (by simp [List.take_succ_cons, hx])
          simp only [pnIdx, if_neg hy]
          rw [ih n hrest (by simpa using hg)]
          rfl

/-- `findPageIdx` depends only on the page-number column. -/
theorem findPageIdx_eq_pnIdx (pn : Int) :
    ∀ (l : List Frame), findPageIdx pn l = pnIdx pn (l.map Frame.pageNum) := by
  intro l
  induction l with
  | nil => rfl
  | cons f fs ih => simp [findPageIdx, pnIdx, ih]

/-- One-step unfolding of `pinFind` on a cons cell. -/
theorem pinFind_cons (pn : Int) (f : Frame) (fs : List Frame) :
    pinFind pn (f :: fs) =
      (if f.pageNum = -1 then PinFindRes.empty 0
       else if f.pageNum = pn then PinFindRes.found 0
       else
         match pinFind pn fs with
         | PinFindRes.noFrames => PinFindRes.evict
         | r => shiftRes r) := rfl

/-- `pinPage`'s frame search returns `noFrames` only on an empty pool. -/
theorem pinFind_eq_noFrames (pn : Int) :
    ∀ l : List Frame, pinFind pn l = PinFindRes.noFrames → l = [] := by
  intro l h
  cases l with
  | nil => rfl
  | cons f fs =>
      exfalso
      rw [pinFind_cons] at h
      by_cases h1 : f.pageNum = -1
      · rw [if_pos h1] at h; simp at h
      · rw [if_neg h1] at h
        by_cases h2 : f.pageNum = pn
        · rw [if_pos h2] at h; simp at h
        · rw [if_neg h2] at h
          cases hr : pinFind pn fs <;> rw [hr] at h <;> simp [shiftRes] at h

/-- Characterization of the `empty` outcome of `pinPage`'s frame search:
every earlier frame is non-empty and does not hold the page, and frame `i`
is empty. -/
theorem pinFind_empty_spec (pn : Int) :
    ∀ (l : List Frame) (i : Nat), pinFind pn l = PinFindRes.empty i →
      (∀ f ∈ l.take i, f.pageNum ≠ -1 ∧ f.pageNum ≠ pn)
      ∧ ∃ fE, l.get? i = some fE ∧ fE.pageNum = -1 := by
  intro l
  induction l with
  | nil => intro i h; simp [pinFind] at h
  | cons f fs ih =>
      intro i h
      rw [pinFind_cons] at h
      by_cases h1 : f.pageNum = -1
      · rw [if_pos h1] at h
        have hi : 0 = i := by simpa using h
        subst hi
        exact ⟨by simp, f, rfl, h1⟩
      · rw [if_neg h1] at h
        by_cases h2 : f.pageNum = pn
        · rw [if_pos h2] at h; simp at h
        · rw [if_neg h2] at h
          cases hr : pinFind pn fs with
          | noFrames => rw [hr] at h; simp [shiftRes] at h
          | found k => rw [hr] at h; simp [shiftRes] at h
          | evict => rw [hr] at h; simp [shiftRes] at h
          | empty k =>
              rw [hr] at h
              have hk : k + 1 = i := by simpa [shiftRes] using h
              obtain ⟨hpre, fE, hg, hpn⟩ := ih k hr
              constructor
              · intro x hx
                rw [← hk, List.take_succ_cons] at hx
                rcases List.mem_cons.mp hx with h3 | h3
                · subst h3; exact ⟨h1, h2⟩
                · exact hpre x h3
              · refine ⟨fE, ?_, hpn⟩
                rw [← hk]
                simpa using hg

/-- Characterization of the `found` outcome of `pinPage`'s frame search:
every earlier frame is non-empty and does not hold the page, and frame `i`
holds it. -/
theorem pinFind_found_spec (pn : Int) :
    ∀ (l : List Frame) (i : Nat), pinFind pn l = PinFindRes.found i →
      (∀ f ∈ l.take i, f.pageNum ≠ -1 ∧ f.pageNum ≠ pn)
      ∧ ∃ fE, l.get? i = some fE ∧ fE.pageNum = pn := by
  intro l
  induction l with
  | nil => intro i h; simp [pinFind] at h
  | cons f fs ih =>
      intro i h
      rw [pinFind_cons] at h
      by_cases h1 : f.pageNum = -1
      · rw [if_pos h1] at h; simp at h
      · rw [if_neg h1] at h
        by_cases h2 : f.pageNum = pn
        · rw [if_pos h2] at h
          have hi : 0 = i := by simpa using h
          subst hi
          exact ⟨by simp, f, rfl, h2⟩
        · rw [if_neg h2] at h
          cases hr : pinFind pn fs with
          | noFrames => rw [hr] at h; simp [shiftRes] at h
          | empty k => rw [hr] at h; simp [shiftRes] at h
          | evict => rw [hr] at h; simp [shiftRes] at h
          | found k =>
              rw [hr] at h
              have hk : k + 1 = i := by simpa [shiftRes] using h
              obtain ⟨hpre, fE, hg, hpn⟩ := ih k hr
              constructor
              · intro x hx
                rw [← hk, List.take_succ_cons] at hx
                rcases List.mem_cons.mp hx with h3 | h3
                · subst h3; exact ⟨h1, h2⟩
                · exact hpre x h3
              · refine ⟨fE, ?_, hpn⟩
                rw [← hk]
                simpa using hg

/-- Characterization of the `evict` outcome of `pinPage`'s frame search:
the pool is nonempty and no frame is empty or holds the page. -/
theorem pinFind_evict_spec (pn : Int) :
    ∀ l : List Frame, pinFind pn l = PinFindRes.evict →
      l ≠ [] ∧ ∀ f ∈ l, f.pageNum ≠ -1 ∧ f.pageNum ≠ pn := by
  intro l
  induction l with
  | nil => intro h; simp [pinFind] at h
  | cons f fs ih =>
      intro h
      rw [pinFind_cons] at h
      by_cases h1 : f.pageNum = -1
      · rw [if_pos h1] at h; simp at h
      · rw [if_neg h1] at h
        by_cases h2 : f.pageNum = pn
        · rw [if_pos h2] at h; simp at h
        · rw [if_neg h2] at h
          refine ⟨by simp, ?_⟩
          intro x hx
          rcases List.mem_cons.mp hx with h3 | h3
          · subst h3; exact ⟨h1, h2⟩
          · cases hr : pinFind pn fs with
            | noFrames =>
                have hnil : fs = [] := pinFind_eq_noFrames pn fs hr
                subst hnil; cases h3
            | evict => exact (ih hr).2 x h3
            | empty k => rw [hr] at h; simp [shiftRes] at h
            | found k => rw [hr] at h; simp [shiftRes] at h

/-- Converse: on a nonempty pool where no frame is empty or holds the page,
`pinPage`'s frame search reaches the eviction branch. -/
theorem pinFind_evict_of (pn : Int) :
    ∀ l : List Frame, l ≠ [] → (∀ f ∈ l, f.pageNum ≠ -1 ∧ f.pageNum ≠ pn) →
      pinFind pn l = PinFindRes.evict := by
  intro l
  induction l with
  | nil => intro h _; exact absurd rfl h
  | cons f fs ih =>
      intro _ hall
      obtain ⟨h1, h2⟩ := hall f (List.mem_cons_self f fs)
      rw [pinFind_cons, if_neg h1, if_neg h2]
      cases fs with
      | nil => rfl
      | cons g gs =>
          have hr := ih (by simp) (fun x hx => hall x (List.mem_cons_of_mem f hx))
          rw [hr]
          rfl

/-- One-step unfolding of the victim-selection loop. -/
theorem selectVictim_cons (a fx lowest : Int) (as fxs : List Int)
    (best : Option Nat) (i : Nat) :
    selectVictim (a :: as) (fx :: fxs) lowest best i =
      (if fx = 0 ∧ a < lowest then selectVictim as fxs a (some i) (i + 1)
       else selectVictim as fxs lowest best (i + 1)) := rfl

/-- With every frame pinned (all fix counts nonzero), the selection loop
never updates its victim: `strategyFIFOandLRU` returns the initial -1. -/
theorem selectVictim_snd_of_nonzero :
    ∀ (attrs fixes : List Int) (lowest : Int) (best : Option Nat) (i : Nat),
      (∀ x ∈ fixes, x ≠ 0) → (selectVictim attrs fixes lowest best i).2 = best := by
  intro attrs
  induction attrs with
  | nil => intro fixes lowest best i hf; cases fixes <;> rfl
  | cons a as ih =>
      intro fixes lowest best i hf
      cases fixes with
      | nil => rfl
      | cons fx fxs =>
          rw [selectVictim_cons,
            if_neg (fun hc => (hf fx (List.mem_cons_self _ _)) hc.1)]
          exact ih fxs lowest best (i + 1) (fun x hx => hf x (List.mem_cons_of_mem _ hx))

/-- A victim produced by the selection loop indexes the fix-count array. -/
theorem selectVictim_snd_bound :
    ∀ (attrs fixes : List Int) (lowest : Int) (best : Option Nat) (i v : Nat),
      (selectVictim attrs fixes lowest best i).2 = some v →
      best = some v ∨ (i ≤ v ∧ v < i + fixes.length) := by
  intro attrs
  induction attrs with
  | nil => intro fixes lowest best i v h; cases fixes <;> exact Or.inl h
  | cons a as ih =>
      intro fixes lowest best i v h
      cases fixes with
      | nil => exact Or.inl h
      | cons fx fxs =>
          rw [selectVictim_cons] at h
          by_cases hc : fx = 0 ∧ a < lowest
          · rw [if_pos hc] at h
            rcases ih fxs a (some i) (i + 1) v h with h1 | ⟨h2, h3⟩
            · have hiv : i = v := Option.some.inj h1
              right
              rw [List.length_cons]
              omega
            · right
              rw [List.length_cons]
              omega
          · rw [if_neg hc] at h
            rcases ih fxs lowest best (i + 1) v h with h1 | ⟨h2, h3⟩
            · exact Or.inl h1
            · right
              rw [List.length_cons]
              omega

/-- `strategyFIFOandLRU` does not change fix counts, resident page numbers
or the number of frames (the normalization pass touches only stamps and
the timer). -/
theorem strategyFIFOandLRU_maps (s : BPState) (v : Option Nat) (s1 : BPState)
    (h : strategyFIFOandLRU s = some (v, s1)) :
    s1.frames.map Frame.fixCounts = s.frames.map Frame.fixCounts
    ∧ s1.frames.map Frame.pageNum = s.frames.map Frame.pageNum := by
  unfold strategyFIFOandLRU at h
  cases hattr : getAttributionArray s.frames with
  | none => rw [hattr] at h; cases h
  | some attrs =>
      rw [hattr] at h
      dsimp only at h
      by_cases hcond : s.timer > 32000
        ∧ (selectVictim attrs (s.frames.map Frame.fixCounts) s.timer none 0).2 ≠ none
      · rw [if_pos hcond] at h
        have h2 := Option.some.inj h
        have hs : s1 = _ := (congrArg Prod.snd h2).symm
        subst hs
        dsimp only
        constructor
        · rw [List.map_map]
          rfl
        · rw [List.map_map]
          rfl
      · rw [if_neg hcond] at h
        have h2 := Option.some.inj h
        have hs : s1 = s := (congrArg Prod.snd h2).symm
        subst hs
        exact ⟨rfl, rfl⟩

/-- A victim index returned by `strategyFIFOandLRU` is in range. -/
theorem strategyFIFOandLRU_victim_lt (s : BPState) (idx : Nat) (s1 : BPState)
    (h : strategyFIFOandLRU s = some (some idx, s1)) : idx < s.frames.length := by
  unfold strategyFIFOandLRU at h
  cases hattr : getAttributionArray s.frames with
  | none => rw [hattr] at h; cases h
  | some attrs =>
      rw [hattr] at h
      dsimp only at h
      have hsel : (selectVictim attrs (s.frames.map Frame.fixCounts) s.timer none 0).2
          = some idx := by
        by_cases hcond : s.timer > 32000
          ∧ (selectVictim attrs (s.frames.map Frame.fixCounts) s.timer none 0).2 ≠ none
        · rw [if_pos hcond] at h
          exact congrArg Prod.fst (Option.some.inj h)
        · rw [if_neg hcond] at h
          exact congrArg Prod.fst (Option.some.inj h)
      rcases selectVictim_snd_bound attrs (s.frames.map Frame.fixCounts) s.timer none 0 idx hsel
        with h1 | ⟨h2, h3⟩
      · cases h1
      · rw [List.length_map] at h3
        omega

/-- `forcePage`'s dirty-reset loop keeps fix counts and page numbers. -/
theorem clearDirtyFirst_map_fix (pn : Int) :
    ∀ l : List Frame, (clearDirtyFirst pn l).map Frame.fixCounts = l.map Frame.fixCounts := by
  intro l
  induction l with
  | nil => rfl
  | cons f fs ih =>
      by_cases hf : f.pageNum = pn
      · simp [clearDirtyFirst, hf]
      · simp [clearDirtyFirst, hf, ih]

/-- Companion of `clearDirtyFirst_map_fix` for the page-number column. -/
theorem clearDirtyFirst_map_pageNum (pn : Int) :
    ∀ l : List Frame, (clearDirtyFirst pn l).map Frame.pageNum = l.map Frame.pageNum := by
  intro l
  induction l with
  | nil => rfl
  | cons f fs ih =>
      by_cases hf : f.pageNum = pn
      · simp [clearDirtyFirst, hf]
      · simp [clearDirtyFirst, hf, ih]

/-- `forcePage` on a frame of the pool changes neither fix counts nor
resident page numbers. -/
theorem forcePageFrame_maps (s : BPState) (i : Nat) (s2 : BPState)
    (h : forcePageFrame s i = some s2) :
    s2.frames.map Frame.fixCounts = s.frames.map Frame.fixCounts
    ∧ s2.frames.map Frame.pageNum = s.frames.map Frame.pageNum := by
  unfold forcePageFrame at h
  cases hg : s.frames.get? i with
  | none => rw [hg] at h; cases h
  | some fr =>
      rw [hg] at h
      dsimp only at h
      cases hd : fr.data with
      | none => rw [hd] at h; cases h
      | some pd =>
          rw [hd] at h
          dsimp only at h
          injection h with h2
          subst h2
          dsimp only
          constructor
          · rw [map_updAt_id (fun f => { f with dirty := false }) Frame.fixCounts
              (fun x => rfl), clearDirtyFirst_map_fix]
          · rw [map_updAt_id (fun f => { f with dirty := false }) Frame.pageNum
              (fun x => rfl), clearDirtyFirst_map_pageNum]

/-- The `forceFlushPool` loop keeps the fix-count column. -/
theorem flushLoop_fixmap :
    ∀ (lst : List (Bool × Int)) (s : BPState) (i : Nat) (s2 : BPState),
      flushLoop s lst i = some s2 →
      s2.frames.map Frame.fixCounts = s.frames.map Frame.fixCounts := by
  intro lst
  induction lst with
  | nil =>
      intro s i s2 h
      injection h with h2
      subst h2
      rfl
  | cons p rest ih =>
      intro s i s2 h
      obtain ⟨d, fx⟩ := p
      simp only [flushLoop] at h
      by_cases hc : d = true ∧ fx = 0
      · rw [if_pos hc] at h
        cases hf : forcePageFrame s i with
        | none => rw [hf] at h; cases h
        | some s3 =>
            rw [hf] at h
            have h4 := ih _ _ _ h
            rw [h4]
            dsimp only
            rw [map_updAt_id (fun f => { f with dirty := false }) Frame.fixCounts
              (fun x => rfl), (forcePageFrame_maps s i s3 hf).1]
      · rw [if_neg hc] at h
        exact ih _ _ _ h

/-- Transfer a prefix condition on frames to the page-number column. -/
theorem pnmap_take_ne (l : List Frame) (i : Nat) (pn : Int)
    (hpre : ∀ f ∈ l.take i, f.pageNum ≠ pn) :
    ∀ x ∈ (l.map Frame.pageNum).take i, x ≠ pn := by
  intro x hx
  rw [← List.map_take] at hx
  rcases List.mem_map.mp hx with ⟨f, hf, he⟩
  rw [← he]
  exact hpre f hf

/-- Effect of the `flag == 1` tail of `pinPage` on the bookkeeping columns:
the loaded frame's fix count is bumped and the frame becomes the first one
holding the requested page, provided no earlier frame holds it. -/
theorem pinLoadFrame_effect (s : BPState) (i : Nat) (pn : Int) (s1 : BPState)
    (hdl : BMPageHandle)
    (hpre : ∀ x ∈ (s.frames.map Frame.pageNum).take i, x ≠ pn)
    (heq : pinLoadFrame s i pn = some (s1, hdl)) :
    s1.frames.map Frame.fixCounts = bumpAt (s.frames.map Frame.fixCounts) i
    ∧ findPageIdx pn s1.frames = some i := by
  unfold pinLoadFrame at heq
  cases hg : s.frames.get? i with
  | none => rw [hg] at heq; cases heq
  | some fr =>
      rw [hg] at heq
      dsimp only at heq
      have hs : s1 = _ := (congrArg Prod.fst (Option.some.inj heq)).symm
      subst hs
      dsimp only
      constructor
      · rw [map_updAt_comm
          (fun f => { f with data := some (s.disk pn), fixCounts := f.fixCounts + 1,
                             pageNum := pn, strategyAttribute := some s.timer })
          (fun x => x + 1) Frame.fixCounts (fun x => rfl)]
        rfl
      · rw [findPageIdx_eq_pnIdx]
        rw [map_updAt_comm
          (fun f => { f with data := some (s.disk pn), fixCounts := f.fixCounts + 1,
                             pageNum := pn, strategyAttribute := some s.timer })
          (fun _ => pn) Frame.pageNum (fun x => rfl)]
        apply pnIdx_some_of
        · intro x hx
          rw [updAt_take] at hx
          exact hpre x hx
        · rw [updAt_get?_self, List.get?_map, hg]
          rfl

/-- Effect of a successful `pinPage` on the fix-count column: either the
pool has no frames and nothing happens (the handle is left unpopulated),
or exactly one frame's fix count is incremented and that frame is the
first one holding the pinned page. -/
theorem pinPageStep_effect (s : BPState) (pn : Int) (s1 : BPState) (hdl : BMPageHandle)
    (heq : pinPageStep s pn = some (s1, hdl)) :
    (s1 = s ∧ hdl.data = none)
    ∨ (∃ i, i < s.frames.length
        ∧ s1.frames.map Frame.fixCounts = bumpAt (s.frames.map Frame.fixCounts) i
        ∧ findPageIdx pn s1.frames = some i) := by
  unfold pinPageStep at heq
  cases hf : pinFind pn s.frames with
  | noFrames =>
      rw [hf] at heq
      dsimp only at heq
      have h2 := Option.some.inj heq
      left
      refine ⟨(congrArg Prod.fst h2).symm, ?_⟩
      have h3 : hdl = { pageNum := 0, dirty := false, fixCounts := 0, data := none } :=
        (congrArg Prod.snd h2).symm
      rw [h3]
  | empty i =>
      rw [hf] at heq
      dsimp only at heq
      obtain ⟨hpre, fE, hg, hpn⟩ := pinFind_empty_spec pn s.frames i hf
      right
      refine ⟨i, get?_some_lt _ _ _ hg, ?_⟩
      exact pinLoadFrame_effect s i pn s1 hdl
        (pnmap_take_ne _ _ _ (fun f hfm => (hpre f hfm).2)) heq
  | found i =>
      rw [hf] at heq
      dsimp only at heq
      obtain ⟨hpre, fE, hg, hpn⟩ := pinFind_found_spec pn s.frames i hf
      right
      by_cases hstr : s.strategy = Strategy.RS_LRU
      · rw [if_pos hstr] at heq
        cases hg2 : (updAt (fun f => { f with strategyAttribute := some s.timer })
            s.frames i).get? i with
        | none =>
            rw [hg2] at heq
            cases heq
        | some fr =>
            rw [hg2] at heq
            dsimp only at heq
            have hs : s1 = _ := (congrArg Prod.fst (Option.some.inj heq)).symm
            subst hs
            dsimp only
            refine ⟨i, get?_some_lt _ _ _ hg, ?_, ?_⟩
            · rw [map_updAt_comm (fun f => { f with fixCounts := f.fixCounts + 1 })
                (fun x => x + 1) Frame.fixCounts (fun x => rfl)]
              rw [map_updAt_id (fun f => { f with strategyAttribute := some s.timer })
                Frame.fixCounts (fun x => rfl)]
              rfl
            · rw [findPageIdx_eq_pnIdx]
              rw [map_updAt_id (fun f => { f with fixCounts := f.fixCounts + 1 })
                Frame.pageNum (fun x => rfl)]
              rw [map_updAt_id (fun f => { f with strategyAttribute := some s.timer })
                Frame.pageNum (fun x => rfl)]
              apply pnIdx_some_of
              · exact pnmap_take_ne _ _ _ (fun f hfm => (hpre f hfm).2)
              · rw [List.get?_map, hg]
                exact congrArg some hpn
      · rw [if_neg hstr] at heq
        cases hg2 : s.frames.get? i with
        | none => rw [hg2] at heq; cases heq
        | some fr =>
            rw [hg2] at heq
            dsimp only at heq
            have hs : s1 = _ := (congrArg Prod.fst (Option.some.inj heq)).symm
            subst hs
            dsimp only
            refine ⟨i, get?_some_lt _ _ _ hg, ?_, ?_⟩
            · rw [map_updAt_comm (fun f => { f with fixCounts := f.fixCounts + 1 })
                (fun x => x + 1) Frame.fixCounts (fun x => rfl)]
              rfl
            · rw [findPageIdx_eq_pnIdx]
              rw [map_updAt_id (fun f => { f with fixCounts := f.fixCounts + 1 })
                Frame.pageNum (fun x => rfl)]
              apply pnIdx_some_of
              · exact pnmap_take_ne _ _ _ (fun f hfm => (hpre f hfm).2)
              · rw [List.get?_map, hg]
                exact congrArg some hpn
  | evict =>
      rw [hf] at heq
      dsimp only at heq
      obtain ⟨hne, hall⟩ := pinFind_evict_spec pn s.frames hf
      right
      cases hs1 : strategyFIFOandLRU s with
      | none => rw [hs1] at heq; cases heq
      | some pr =>
          obtain ⟨vOpt, sv⟩ := pr
          cases vOpt with
          | none => rw [hs1] at heq; cases heq
          | some v =>
              rw [hs1] at heq
              dsimp only at heq
              obtain ⟨hfixv, hpnv⟩ := strategyFIFOandLRU_maps s (some v) sv hs1
              have hvlt : v < s.frames.length := strategyFIFOandLRU_victim_lt s v sv hs1
              have hallpn : ∀ x ∈ (sv.frames.map Frame.pageNum).take v, x ≠ pn := by
                intro x hx
                have hx2 : x ∈ sv.frames.map Frame.pageNum := List.mem_of_mem_take hx
                rw [hpnv] at hx2
                rcases List.mem_map.mp hx2 with ⟨f, hfm, he⟩
                rw [← he]
                exact (hall f hfm).2
              cases hg2 : sv.frames.get? v with
              | none => rw [hg2] at heq; cases heq
              | some vf =>
                  rw [hg2] at heq
                  dsimp only at heq
                  by_cases hd : vf.dirty
                  · rw [if_pos hd] at heq
                    cases hfp : forcePageFrame sv v with
                    | none => rw [hfp] at heq; cases heq
                    | some s2 =>
                        rw [hfp] at heq
                        obtain ⟨hfix2, hpn2⟩ := forcePageFrame_maps sv v s2 hfp
                        have heff := pinLoadFrame_effect s2 v pn s1 hdl
                          (by rw [hpn2]; exact hallpn) heq
                        refine ⟨v, hvlt, ?_, heff.2⟩
                        rw [heff.1, hfix2, hfixv]
                  · rw [if_neg hd] at heq
                    have heff := pinLoadFrame_effect sv v pn s1 hdl hallpn heq
                    refine ⟨v, hvlt, ?_, heff.2⟩
                    rw [heff.1, hfixv]

/-! ### Claim C2 — pinPage with every frame pinned -/

/-- C2: the failing scenario evaluated on the code.  On any pool state in
which every frame is pinned (fix count > 0), no frame is empty, and no
frame holds the requested page, `pinPage` reaches the eviction branch,
`strategyFIFOandLRU` finds no unpinned frame and returns -1, and the
source then reads `mgmtData[-1]` — an out-of-bounds access, undefined
behavior (`none`).  No `NO_FRAME` error exists in dberror.h or is ever
returned. -/
theorem C2_pin_all_pinned_undefined (s : BPState) (pn : Int)
    (hne : s.frames ≠ [])
    (hfix : ∀ f ∈ s.frames, 0 < f.fixCounts)
    (hpn : ∀ f ∈ s.frames, f.pageNum ≠ pn)
    (hnonempty : ∀ f ∈ s.frames, f.pageNum ≠ -1) :
    pinPageStep s pn = none := by
  have hfind : pinFind pn s.frames = PinFindRes.evict :=
    pinFind_evict_of pn s.frames hne (fun f hf => ⟨hnonempty f hf, hpn f hf⟩)
  unfold pinPageStep
  rw [hfind]
  dsimp only
  cases hattr : getAttributionArray s.frames with
  | none =>
      have hs : strategyFIFOandLRU s = none := by
        unfold strategyFIFOandLRU
        rw [hattr]
      rw [hs]
  | some attrs =>
      have hsel : (selectVictim attrs (s.frames.map Frame.fixCounts) s.timer none 0).2
          = none := by
        apply selectVictim_snd_of_nonzero
        intro x hx
        rcases List.mem_map.mp hx with ⟨f, hfm, he⟩
        rw [← he]
        exact (hfix f hfm).ne'
      have hs : strategyFIFOandLRU s = some (none, s) := by
        unfold strategyFIFOandLRU
        rw [hattr]
        dsimp only
        rw [hsel]
        simp
      rw [hs]

/-- Witness for C2: a one-frame pool whose only frame holds page 0 with
fix count 1, asked to pin page 5. -/
theorem C2_pin_all_pinned_undefined_witness :
    pinPageStep allPinnedPool 5 = none := by
  apply C2_pin_all_pinned_undefined
  · simp [allPinnedPool]
  · intro f hf
    simp [allPinnedPool] at hf
    subst hf
    norm_num
  · intro f hf
    simp [allPinnedPool] at hf
    subst hf
    norm_num
  · intro f hf
    simp [allPinnedPool] at hf
    subst hf
    norm_num

/-! ### Claim C8 — getRecord and fix counts -/

/-- C8 amended: `getRecord` restores every fix count on the `RC_OK` path
(the pin is matched by exactly one unpin), but on the
`RC_RM_RECORD_NOT_EXIST` path it returns with the pinned frame's fix count
still incremented — the early return skips the unpin. -/
theorem C8_amended_fix_counts (s : BPState) (pg : Int) (slot : Nat) (rc : Int)
    (fl : List Int)
    (h : (getRecordModel s pg slot).map (fun r => (r.1, getFixCountsArr r.2.frames))
        = some (rc, fl)) :
    (rc = RC_OK → fl = getFixCountsArr s.frames)
    ∧ (rc = RC_RM_RECORD_NOT_EXIST →
        ∃ i, i < s.frames.length ∧ fl = bumpAt (getFixCountsArr s.frames) i) := by
  unfold getRecordModel at h
  cases hp : pinPageStep s pg with
  | none => rw [hp] at h; cases h
  | some pr =>
      obtain ⟨s1, hdl⟩ := pr
      rw [hp] at h
      dsimp only at h
      cases hd : hdl.data with
      | none => rw [hd] at h; cases h
      | some pd =>
          rw [hd] at h
          dsimp only at h
          rcases pinPageStep_effect s pg s1 hdl hp with ⟨hs1, hdn⟩ | ⟨i, hi, hfix, hidx⟩
          · rw [hdn] at hd; cases hd
          · by_cases hflag : pd (256 * slot) = 0
            · rw [if_pos hflag] at h
              have h2 := Option.some.inj h
              have hrc : rc = RC_RM_RECORD_NOT_EXIST := (congrArg Prod.fst h2).symm
              have hfl : fl = getFixCountsArr s1.frames := (congrArg Prod.snd h2).symm
              constructor
              · intro hok
                exfalso
                rw [hrc] at hok
                norm_num [RC_RM_RECORD_NOT_EXIST, RC_OK] at hok
              · intro _
                exact ⟨i, hi, by rw [hfl]; exact hfix⟩
            · rw [if_neg hflag] at h
              have h2 := Option.some.inj h
              have hrc : rc = RC_OK := (congrArg Prod.fst h2).symm
              have hfl : fl = getFixCountsArr (unpinPageStep s1 pg).frames :=
                (congrArg Prod.snd h2).symm
              constructor
              · intro _
                rw [hfl]
                unfold unpinPageStep getFixCountsArr
                rw [hidx]
                dsimp only
                rw [map_updAt_comm (fun f => { f with fixCounts := f.fixCounts - 1 })
                  (fun x => x - 1) Frame.fixCounts (fun x => rfl)]
                rw [show s1.frames.map Frame.fixCounts
                    = bumpAt (s.frames.map Frame.fixCounts) i from hfix]
                unfold bumpAt
                rw [updAt_updAt_same]
                exact updAt_id_ext _ (fun x => by omega) _ _
              · intro hne
                exfalso
                rw [hrc] at hne
                norm_num [RC_RM_RECORD_NOT_EXIST, RC_OK] at hne

/-- Witness for the amended C8: on a pool whose file holds a live record
at page 3 slot 0, `getRecord` returns `RC_OK` with the fix counts restored
to their previous values. -/
theorem C8_amended_fix_counts_witness :
    ((getRecordModel onePoolLiveFile 3 0).map (fun r => (r.1, getFixCountsArr r.2.frames))
        = some (RC_OK, [0]))
    ∧ (RC_OK = RC_OK → ([0] : List Int) = getFixCountsArr onePoolLiveFile.frames) :=
  ⟨by decide, (C8_amended_fix_counts onePoolLiveFile 3 0 RC_OK [0] (by decide)).1⟩

/-! ### Claim C1 — fix counts stay nonnegative under matched unpins -/

/-- One guarded step preserves nonnegativity of every fix count. -/
theorem stepBPG_preserves (s s2 : BPState) (op : BPOp)
    (hInv : ∀ x ∈ s.frames.map Frame.fixCounts, 0 ≤ x)
    (h : stepBPG s op = some s2) :
    ∀ x ∈ s2.frames.map Frame.fixCounts, 0 ≤ x := by
  cases op with
  | init n strat =>
      have h2 : s2 = initPoolStep s n strat := (Option.some.inj h).symm
      subst h2
      intro x hx
      unfold initPoolStep at hx
      dsimp only at hx
      rw [List.map_replicate] at hx
      rw [List.eq_of_mem_replicate hx]
      norm_num [emptyFrame]
  | pin pn =>
      simp only [stepBPG] at h
      by_cases halive : s.alive = true
      · rw [if_pos halive] at h
        rcases Option.map_eq_some'.mp h with ⟨pr, hp, hfst⟩
        obtain ⟨s1, hdl⟩ := pr
        have hs2 : s2 = s1 := hfst.symm
        subst hs2
        rcases pinPageStep_effect s pn s2 hdl hp with ⟨hs1, _⟩ | ⟨i, hi, hfix, _⟩
        · rw [hs1]; exact hInv
        · intro x hx
          rw [hfix] at hx
          unfold bumpAt at hx
          rcases mem_updAt_int _ _ _ _ hx with h3 | ⟨hlt, he⟩
          · exact hInv x h3
          · have hmem : (s.frames.map Frame.fixCounts).getD i 0 ∈ s.frames.map Frame.fixCounts :=
              getD_mem_of_lt _ _ hlt
            have := hInv _ hmem
            omega
      · rw [if_neg halive] at h
        cases h
  | unpin pn =>
      simp only [stepBPG] at h
      by_cases halive : s.alive = true
      · rw [if_pos halive] at h
        unfold unpinPageChk at h
        cases hidx : findPageIdx pn s.frames with
        | none =>
            rw [hidx] at h
            dsimp only at h
            have h2 : s2 = s := (Option.some.inj h).symm
            subst h2
            exact hInv
        | some i =>
            rw [hidx] at h
            dsimp only at h
            by_cases hguard : 0 < (s.frames.map Frame.fixCounts).getD i 0
            · rw [if_pos hguard] at h
              have h2 : s2 = unpinPageStep s pn := (Option.some.inj h).symm
              subst h2
              unfold unpinPageStep
              rw [hidx]
              dsimp only
              intro x hx
              rw [map_updAt_comm (fun f => { f with fixCounts := f.fixCounts - 1 })
                (fun y => y - 1) Frame.fixCounts (fun y => rfl)] at hx
              rcases mem_updAt_int _ _ _ _ hx with h3 | ⟨hlt, he⟩
              · exact hInv x h3
              · omega
            · rw [if_neg hguard] at h
              cases h
      · rw [if_neg halive] at h
        cases h
  | markDirty pn =>
      simp only [stepBPG] at h
      by_cases halive : s.alive = true
      · rw [if_pos halive] at h
        have h2 : s2 = (markDirtyStep s pn).2 := (Option.some.inj h).symm
        subst h2
        unfold markDirtyStep
        cases hidx : findPageIdx pn s.frames with
        | none => exact hInv
        | some i =>
            dsimp only
            intro x hx
            rw [map_updAt_id (fun f => { f with dirty := true })
              Frame.fixCounts (fun y => rfl)] at hx
            exact hInv x hx
      · rw [if_neg halive] at h
        cases h
  | force pn =>
      simp only [stepBPG] at h
      by_cases halive : s.alive = true
      · rw [if_pos halive] at h
        unfold forcePageOp at h
        cases hidx : findPageIdx pn s.frames with
        | none => rw [hidx] at h; cases h
        | some i =>
            rw [hidx] at h
            intro x hx
            rw [(forcePageFrame_maps s i s2 h).1] at hx
            exact hInv x hx
      · rw [if_neg halive] at h
        cases h
  | flush =>
      simp only [stepBPG] at h
      by_cases halive : s.alive = true
      · rw [if_pos halive] at h
        unfold forceFlushPoolStep at h
        intro x hx
        rw [flushLoop_fixmap _ _ _ _ h] at hx
        exact hInv x hx
      · rw [if_neg halive] at h
        cases h
  | shutdown =>
      simp only [stepBPG] at h
      by_cases halive : s.alive = true
      · rw [if_pos halive] at h
        rcases Option.map_eq_some'.mp h with ⟨pr, hsd, hsnd⟩
        obtain ⟨rc, s3⟩ := pr
        have hs2 : s2 = s3 := hsnd.symm
        subst hs2
        unfold shutdownStep at hsd
        by_cases hany : s.frames.any (fun f => f.fixCounts ≠ 0) = true
        · rw [if_pos hany] at hsd
          have h3 : s2 = s := (congrArg Prod.snd (Option.some.inj hsd)).symm
          rw [h3]
          exact hInv
        · rw [if_neg hany] at hsd
          cases hfl : forceFlushPoolStep s with
          | none => rw [hfl] at hsd; dsimp only at hsd; cases hsd
          | some s4 =>
              rw [hfl] at hsd
              dsimp only at hsd
              have h3 : s2 = _ := (congrArg Prod.snd (Option.some.inj hsd)).symm
              rw [h3]
              dsimp only
              intro x hx
              rw [List.map_map] at hx
              have hx2 : x ∈ s4.frames.map Frame.fixCounts := hx
              rw [flushLoop_fixmap _ _ _ _ hfl] at hx2
              exact hInv x hx2
      · rw [if_neg halive] at h
        cases h

/-- The guarded run preserves nonnegativity of every fix count. -/
theorem runBPG_inv :
    ∀ (ops : List BPOp) (s0 s : BPState),
      (∀ x ∈ s0.frames.map Frame.fixCounts, 0 ≤ x) →
      runBPG s0 ops = some s → ∀ x ∈ s.frames.map Frame.fixCounts, 0 ≤ x := by
  intro ops
  induction ops with
  | nil =>
      intro s0 s h0 hr
      have h2 : s = s0 := (Option.some.inj hr).symm
      subst h2
      exact h0
  | cons op rest ih =>
      intro s0 s h0 hr
      simp only [runBPG] at hr
      cases hstep : stepBPG s0 op with
      | none => rw [hstep] at hr; cases hr
      | some s1 =>
          rw [hstep] at hr
          exact ih s1 s (stepBPG_preserves s0 s1 op h0 hstep) hr

/-- C1 amended: in every state reachable from an uninitialized pool by
initBufferPool, pinPage, unpinPage, markDirty, forcePage, forceFlushPool
and shutdownBufferPool — with each unpinPage applied only while the
matched frame's fix count is positive (pins and unpins properly paired) —
every frame's fix count is ≥ 0.  Without that pairing restriction the
claim fails: the source's `unpinPage` decrements with no guard, so a
double unpin drives a fix count to -1 (see the counterexample). -/
theorem C1_fix_counts_nonneg_guarded (ops : List BPOp) (s : BPState)
    (h : runBPG bpStart ops = some s) :
    ∀ x ∈ getFixCountsArr s.frames, 0 ≤ x :=
  runBPG_inv ops bpStart s (by simp [bpStart]) h

/-- Witness for the amended C1 at the trace that just initializes a
one-frame LRU pool. -/
theorem C1_fix_counts_nonneg_guarded_witness :
    (runBPG bpStart [BPOp.init 1 Strategy.RS_LRU] = some oneFrameFreshPool)
    ∧ ∀ x ∈ getFixCountsArr oneFrameFreshPool.frames, 0 ≤ x :=
  ⟨rfl, C1_fix_counts_nonneg_guarded [BPOp.init 1 Strategy.RS_LRU] oneFrameFreshPool rfl⟩
